import Mathlib

/-!
# Verification of the planilla2 spreadsheet batch-update engine

Shallow embedding of the core of `src/code.py`: the row filter
(`find_rows`), the batch-update planner (`update_steps`, split here into
the pure cell-planning part and the submission part), the quota-error
handler (`handle_quota_error`), the cached read (`get_data`), and the
timestamp formatter (`get_chile_timestamp`).  Components of the
repository described by the spec but not present under `src/` (the
column-letter address codec and the free-text row filter) are modelled
from the spec and marked as such in their doc comments.

Machine-level details that do not affect the verified properties
(Streamlit rendering, OAuth bootstrap) are outside the embedding; the
ambient current time is passed as an explicit `ChileTime` value and
external API calls are passed as explicit outcome values.
-/

/-- A single cell write, mirroring `gspread.Cell(row, col, value)` as
constructed throughout `update_steps` (src/code.py lines 71-108). -/
structure Cell where
  row : Nat
  col : Nat
  value : String
deriving DecidableEq, Repr

/-- One entry of the `steps_updates` list passed to `update_steps`
(src/code.py lines 605-620): the step's value column, optional
observation column, date column, the chosen value, and the observation
text.  The unused `step_label` key is omitted. -/
structure StepUpdate where
  step_col : Nat
  obs_col : Option Nat
  date_col : Nat
  value : String
  obs_value : String
deriving DecidableEq, Repr

/-- `consultoria_col = 3` (src/code.py line 76). -/
def consultoria_col : Nat := 3

/-- `comentarios_col = 25` (src/code.py line 101). -/
def comentarios_col : Nat := 25

/-- `ultima_actualizacion_col = 26` (src/code.py line 106). -/
def ultima_actualizacion_col : Nat := 26

/-- The literal list of "positive/active" step values from src/code.py
line 95: `['Sí', 'Programado', 'Sí (DropControl)', 'Sí (CDTEC IF)']`. -/
def fecha_values : List String := ["Sí", "Programado", "Sí (DropControl)", "Sí (CDTEC IF)"]

/-- A wall-clock reading in the Chile time zone, the input that
`datetime.now(ZoneInfo("America/Santiago"))` supplies to the formatter. -/
structure ChileTime where
  day : Nat
  month : Nat
  year : Nat
  hour : Nat
  minute : Nat
deriving DecidableEq, Repr

/-- Two-digit zero padding, as `strftime` produces for `%d`, `%m`, `%y`,
`%H` and `%M`. -/
def pad2 (n : Nat) : String :=
  if n < 10 then "0" ++ toString n else toString n

/-- `get_chile_timestamp` (src/code.py lines 11-15): formats the current
Chile time as `'%d-%m-%y %H:%M'`, i.e. `DD-MM-YY HH:MM`. -/
def get_chile_timestamp (t : ChileTime) : String :=
  pad2 t.day ++ "-" ++ pad2 t.month ++ "-" ++ pad2 (t.year % 100) ++ " "
    ++ pad2 t.hour ++ ":" ++ pad2 t.minute

/-- The body of the inner `for row in rows` loop for one step
(src/code.py lines 88-98): the value write with the sentinel resolved,
the observation write when `obs_col` is defined, and the date write
(timestamp when the resolved value is in `fecha_values`, empty string
otherwise). -/
def step_cells (now : String) (step : StepUpdate) (row : Nat) : List Cell :=
  let update_value := if step.value == "Vacío" then "" else step.value
  [Cell.mk row step.step_col update_value]
    ++ (match step.obs_col with
        | some oc => [Cell.mk row oc step.obs_value]
        | none => [])
    ++ [Cell.mk row step.date_col
          (if fecha_values.contains update_value then now else "")]

/-- The `cells_to_update` list built by `update_steps` (src/code.py lines
71-108): classification writes for every row, then per step and per row
the `step_cells` block, then the comment writes, then the last-modified
writes.  `t` is the ambient current time read on line 72. -/
def update_steps_cells (t : ChileTime) (rows : List Nat) (steps_updates : List StepUpdate)
    (consultoria_value comentarios_value : String) : List Cell :=
  let now := get_chile_timestamp t
  let update_consultoria := if consultoria_value == "Vacío" then "" else consultoria_value
  (rows.map fun row => Cell.mk row consultoria_col update_consultoria)
    ++ (steps_updates.flatMap fun step => rows.flatMap fun row => step_cells now step row)
    ++ (rows.map fun row => Cell.mk row comentarios_col comentarios_value)
    ++ (rows.map fun row => Cell.mk row ultima_actualizacion_col now)

/-- The per-row write sequence the claims describe: classification write,
then for each step its value write, its observation write (when defined)
and its date write, then the comment write, then the last-modified
write. -/
def per_row_writes (t : ChileTime) (steps_updates : List StepUpdate)
    (consultoria_value comentarios_value : String) (row : Nat) : List Cell :=
  let now := get_chile_timestamp t
  [Cell.mk row consultoria_col (if consultoria_value == "Vacío" then "" else consultoria_value)]
    ++ (steps_updates.flatMap fun step => step_cells now step row)
    ++ [Cell.mk row comentarios_col comentarios_value]
    ++ [Cell.mk row ultima_actualizacion_col now]

/-- The (column, value) pairs of one step's block, shared by every target
row. -/
def step_pairs (now : String) (step : StepUpdate) : List (Nat × String) :=
  let update_value := if step.value == "Vacío" then "" else step.value
  [(step.step_col, update_value)]
    ++ (match step.obs_col with
        | some oc => [(oc, step.obs_value)]
        | none => [])
    ++ [(step.date_col, if fecha_values.contains update_value then now else "")]

/-- The (column, value) pairs common to every target row of one
`update_steps` invocation. -/
def col_value_pairs (t : ChileTime) (steps_updates : List StepUpdate)
    (consultoria_value comentarios_value : String) : List (Nat × String) :=
  let now := get_chile_timestamp t
  [(consultoria_col, if consultoria_value == "Vacío" then "" else consultoria_value)]
    ++ (steps_updates.flatMap fun step => step_pairs now step)
    ++ [(comentarios_col, comentarios_value)]
    ++ [(ultima_actualizacion_col, now)]

/-- The columns of one step's block: its value column, its observation
column (when defined) and its date column. -/
def step_cols (step : StepUpdate) : List Nat :=
  [step.step_col]
    ++ (match step.obs_col with
        | some oc => [oc]
        | none => [])
    ++ [step.date_col]

/-- The columns written by one `update_steps` invocation: the three fixed
columns and each step's block columns. -/
def written_cols (steps_updates : List StepUpdate) : List Nat :=
  [consultoria_col, comentarios_col, ultima_actualizacion_col]
    ++ steps_updates.flatMap fun step => step_cols step

/-- The loop body of `find_rows` (src/code.py lines 63-67), iterating
over `enumerate(data[1:])` with `i` the enumeration index.  Python's
`row[0]` raises `IndexError` on an empty row, and `row[1]` raises when
the row has fewer than two cells and `selected_sectores` is non-empty
(the `len(selected_sectores) == 0 or ...` disjunction short-circuits);
a raised exception is modelled as `Except.error ()`. -/
def findRowsAux (cuenta : String) (sectores : List String) :
    Nat → List (List String) → Except Unit (List Nat)
  | _, [] => Except.ok []
  | i, row :: rest =>
    match row.head? with
    | none => Except.error ()
    | some c0 =>
      let match_cuenta := c0 == cuenta
      match (if sectores.isEmpty then some true
             else match row[1]? with
                  | some v => some (sectores.contains v)
                  | none => none) with
      | none => Except.error ()
      | some match_sector =>
        match findRowsAux cuenta sectores (i + 1) rest with
        | Except.error e => Except.error e
        | Except.ok rs => Except.ok (if match_cuenta && match_sector then (i + 2) :: rs else rs)

/-- `find_rows` (src/code.py lines 61-68): scans `data[1:]` and collects
`i + 2` for every data row whose first cell equals `selected_cuenta` and
whose second cell is in `selected_sectores` (no sector constraint when
that list is empty). -/
def find_rows (selected_cuenta : String) (selected_sectores : List String)
    (data : List (List String)) : Except Unit (List Nat) :=
  findRowsAux selected_cuenta selected_sectores 0 (data.drop 1)

/-- The spec's matching rule for the exact multi-field lookup: the
account column (column 1) equals the selected account and the category
column (column 2) is a member of the selected set unless that set is
empty. -/
def rowMatches (cuenta : String) (sectores : List String) (row : List String) : Bool :=
  (match row.head? with
   | some c0 => c0 == cuenta
   | none => false)
    && (sectores.isEmpty
        || match row[1]? with
           | some v => sectores.contains v
           | none => false)

/-- The spec-side description of the row filter's result, for the
refinement statement: the 1-based row numbers, offset past the header so
the first data row is row 2, of the data rows satisfying `rowMatches`,
in original sheet order. -/
def findRowsSpec (cuenta : String) (sectores : List String)
    (data : List (List String)) : List Nat :=
  (List.enumFrom 2 (data.drop 1)).filterMap fun p =>
    if rowMatches cuenta sectores p.2 then some p.1 else none

/-- Whether `text` begins with `pat`, on character lists. -/
def hasPrefixChars : List Char → List Char → Bool
  | _, [] => true
  | [], _ :: _ => false
  | a :: as, b :: bs => a == b && hasPrefixChars as bs

/-- Whether `pat` occurs as a contiguous substring of `text`, on
character lists (the semantics of Python's `pat in text`). -/
def containsSub : List Char → List Char → Bool
  | [], pat => pat.isEmpty
  | a :: rest, pat => hasPrefixChars (a :: rest) pat || containsSub rest pat

/-- Python's `pat in s` substring test on strings. -/
def strContains (s pat : String) : Bool :=
  containsSub s.toList pat.toList

/-- ASCII lower-casing of a string, modelling Python's `str.lower()` on
the ASCII texts this program compares. -/
def lowerStr (s : String) : String :=
  String.mk (s.toList.map Char.toLower)

/-- The spec's matching rule for the free-text filter: case-insensitive
substring containment against the 1-based key column's string value;
rows shorter than the key column index do not match. -/
def matchesFilter (keyColumn : Nat) (filterText : String) (row : List String) : Bool :=
  match row[keyColumn - 1]? with
  | some v => strContains (lowerStr v) (lowerStr filterText)
  | none => false

/-- Modelled from the spec: the free-text row filter `findByKey`
(spec section 4.4) lives in repository variants that are not under
`src/`; per the spec it returns, in sheet order and with the header-row
offset, the row numbers whose key-column value contains the filter text
case-insensitively, skipping rows shorter than the key column index. -/
def findByKey (data : List (List String)) (keyColumn : Nat) (filterText : String) : List Nat :=
  (List.enumFrom 2 (data.drop 1)).filterMap fun p =>
    if matchesFilter keyColumn filterText p.2 then some p.1 else none

/-- Modelled from the spec: `columnToLetters` (spec section 4.1) lives in
repository variants that are not under `src/`; per the spec it repeatedly
reduces `n` in base 26 using digits 1-26 (`A` = 1 ... `Z` = 26), most
significant letter first. -/
def columnToLetters (n : Nat) : List Char :=
  if _h : n = 0 then []
  else columnToLetters ((n - 1) / 26) ++ [Char.ofNat (65 + (n - 1) % 26)]
decreasing_by
  have h2 := Nat.div_le_self (n - 1) 26
  omega

/-- Modelled from the spec: `lettersToColumn` (spec section 4.1) lives in
repository variants that are not under `src/`; per the spec it folds
`acc = acc*26 + (char - 'A' + 1)` left to right. -/
def lettersToColumn (letters : List Char) : Nat :=
  letters.foldl (fun acc c => acc * 26 + (c.toNat - 64)) 0

/-- Outcome of one call to the external spreadsheet API: the returned
value, or the text of the raised exception. -/
inductive ApiResult (α : Type) where
  | ok (val : α)
  | err (msg : String)
deriving DecidableEq, Repr

/-- The quota test of `handle_quota_error` (src/code.py lines 44-45):
`"quota" in str(e).lower() or "limit" in str(e).lower()`. -/
def isQuotaError (e : String) : Bool :=
  strContains (lowerStr e) "quota" || strContains (lowerStr e) "limit"

/-- `handle_quota_error` (src/code.py lines 43-48): on a quota/limit
error it displays an error, sleeps 1 second and calls `st.rerun()`,
which aborts the caller — modelled as `some 1` (the slept seconds);
otherwise it returns normally, modelled as `none`. -/
def handle_quota_error (e : String) : Option Nat :=
  if isQuotaError e then some 1 else none

/-- How control leaves the `except` handling of `update_steps`
(src/code.py lines 110-119): `retTrue` = the batch write succeeded and
`True` is returned; `retFalse msg` = `st.error` showed the original
message and `False` is returned; `rerunAfterDelay s` = `st.rerun()` was
raised after sleeping `s` seconds, so `update_steps` never returns. -/
inductive SubmitOutcome where
  | retTrue
  | retFalse (msg : String)
  | rerunAfterDelay (seconds : Nat)
deriving DecidableEq, Repr

/-- Whether the submission path returned `False` to the caller. -/
def SubmitOutcome.returnsFalse : SubmitOutcome → Bool
  | .retFalse _ => true
  | _ => false

/-- The submission tail of `update_steps` (src/code.py lines 110-119)
together with its effect on the `get_data` cache: on a successful batch
write it calls `st.cache_data.clear()` (cache becomes empty) and returns
`True`; on a failure it first runs `handle_quota_error` (which reruns
the script on a quota error, leaving the cache untouched) and otherwise
shows the original message and returns `False`, also leaving the cache
untouched. -/
def update_steps_submit (write : ApiResult Unit) (cache : Option (List (List String))) :
    SubmitOutcome × Option (List (List String)) :=
  match write with
  | .ok _ => (.retTrue, none)
  | .err e =>
    match handle_quota_error e with
    | some d => (.rerunAfterDelay d, cache)
    | none => (.retFalse e, cache)

/-- How control leaves the body of `get_data` (src/code.py lines 52-58):
the fetched snapshot, `None` after showing the original error message,
or a script rerun after sleeping. -/
inductive ReadOutcome where
  | ok (data : List (List String))
  | noneValue (msg : String)
  | rerunAfterDelay (seconds : Nat)
deriving DecidableEq, Repr

/-- The body of `get_data` (src/code.py lines 52-58) applied to the
outcome of the single `sheet.get_all_values()` call it makes. -/
def get_data_body (fetch : ApiResult (List (List String))) : ReadOutcome :=
  match fetch with
  | .ok v => .ok v
  | .err e =>
    match handle_quota_error e with
    | some d => .rerunAfterDelay d
    | none => .noneValue e

/-- The `@st.cache_data` read-through behaviour of `get_data`: a
populated cache is returned as-is, an empty cache triggers a fresh
fetch. -/
def next_snapshot_read (cache : Option (List (List String)))
    (fresh : List (List String)) : List (List String) :=
  match cache with
  | some d => d
  | none => fresh

/-- Modelled from the spec: the retry discipline of spec sections 5-7
("retried once after a short fixed delay before surfacing failure") for
a read call, taking the outcomes of the first attempt and of the single
retry.  This definition follows the spec's words and is not code of
`src/`; it exists to be compared with `get_data_body`. -/
def spec_read_with_retry (first retry : ApiResult (List (List String))) : ReadOutcome :=
  match first with
  | .ok v => .ok v
  | .err e =>
    if isQuotaError e then
      match retry with
      | .ok v => .ok v
      | .err e2 => .noneValue e2
    else .noneValue e

/-! ## Helper lemmas -/

/-- `Char.ofNat` round-trips through `Char.toNat` on the letter range. -/
lemma char_toNat_ofNat_letter (m : Nat) (h : m < 26) :
    (Char.ofNat (65 + m)).toNat = 65 + m := by
  interval_cases m <;> decide

/-- The codec round trip, for every column number (vacuously also 0). -/
lemma lettersToColumn_columnToLetters_aux (n : Nat) :
    lettersToColumn (columnToLetters n) = n := by
  induction n using Nat.strong_induction_on with
  | _ n ih =>
    rw [columnToLetters]
    by_cases h : n = 0
    · simp [h, lettersToColumn]
    · have hdiv : (n - 1) / 26 < n := by
        have := Nat.div_le_self (n - 1) 26
        omega
      have ihd := ih ((n - 1) / 26) hdiv
      have hmod : (n - 1) % 26 < 26 := Nat.mod_lt _ (by omega)
      have hchar := char_toNat_ofNat_letter ((n - 1) % 26) hmod
      simp only [h, if_false, dite_false]
      unfold lettersToColumn at ihd ⊢
      rw [List.foldl_append]
      simp only [List.foldl_cons, List.foldl_nil, ihd, hchar]
      omega

/-! ## C9: address codec round trip -/

/-- C9: for every positive integer `n`, converting the column number to
its letter sequence (base-26 digits `A` = 1 ... `Z` = 26, no zero digit)
and back is the identity: `lettersToColumn (columnToLetters n) = n`. -/
theorem columnToLetters_roundtrip (n : Nat) (_h : 1 ≤ n) :
    lettersToColumn (columnToLetters n) = n :=
  lettersToColumn_columnToLetters_aux n

/-- Witness for C9 at the top of the three-letter range. -/
theorem columnToLetters_roundtrip_witness :
    1 ≤ 18278 ∧ lettersToColumn (columnToLetters 18278) = 18278 :=
  ⟨by decide, columnToLetters_roundtrip 18278 (by decide)⟩

/-! ## Row filter lemmas -/

/-- On a tail whose rows are long enough for every index the loop
touches, `findRowsAux` succeeds and returns exactly the enumerated rows
satisfying `rowMatches`. -/
lemma findRowsAux_ok (cuenta : String) (sectores : List String)
    (tail : List (List String)) :
    ∀ i : Nat,
      (∀ row ∈ tail, row ≠ [] ∧ (sectores ≠ [] → 2 ≤ row.length)) →
      findRowsAux cuenta sectores i tail = Except.ok
        ((List.enumFrom (i + 2) tail).filterMap fun p =>
          if rowMatches cuenta sectores p.2 then some p.1 else none) := by
  induction tail with
  | nil => intro i _; rfl
  | cons row rest ih =>
    intro i h
    obtain ⟨hne, hlen⟩ := h row (List.mem_cons_self row rest)
    have hrec := ih (i + 1) fun r hr => h r (List.mem_cons_of_mem _ hr)
    have harith : i + 1 + 2 = i + 2 + 1 := by omega
    rw [harith] at hrec
    obtain ⟨c0, row', rfl⟩ := List.exists_cons_of_ne_nil hne
    cases sectores with
    | nil =>
      by_cases hc : c0 = cuenta <;>
        simp [findRowsAux, hrec, rowMatches, List.enumFrom_cons, List.filterMap_cons, hc]
    | cons s ss =>
      have h2 : 2 ≤ (c0 :: row').length := hlen (by simp)
      obtain ⟨v, row'', rfl⟩ : ∃ v r, row' = v :: r := by
        cases row' with
        | nil => simp at h2
        | cons v r => exact ⟨v, r, rfl⟩
      by_cases hc : c0 = cuenta <;>
        by_cases hm : (v = s ∨ v ∈ ss) <;>
          simp [findRowsAux, hrec, rowMatches, List.enumFrom_cons, List.filterMap_cons, hc, hm]

/-- Membership in an enumerated filter: `n` is selected iff some data row
at offset `i` from the start satisfies the predicate and `n = k + i`. -/
lemma mem_filterMap_enumFrom {α : Type} (P : α → Bool) (l : List α) :
    ∀ (k n : Nat),
      (n ∈ (List.enumFrom k l).filterMap fun p => if P p.2 then some p.1 else none)
        ↔ ∃ i a, l[i]? = some a ∧ n = k + i ∧ P a = true := by
  induction l with
  | nil => intro k n; simp
  | cons a l ih =>
    intro k n
    simp only [List.enumFrom_cons, List.filterMap_cons]
    by_cases hp : P a = true
    · rw [if_pos hp]
      simp only [List.mem_cons, ih (k + 1) n]
      constructor
      · rintro (rfl | ⟨i, b, hb, rfl, hPb⟩)
        · exact ⟨0, a, by simp, by omega, hp⟩
        · exact ⟨i + 1, b, by simpa using hb, by omega, hPb⟩
      · rintro ⟨i, b, hb, rfl, hPb⟩
        cases i with
        | zero =>
          left
          simp at hb
          omega
        | succ j =>
          right
          exact ⟨j, b, by simpa using hb, by omega, hPb⟩
    · rw [if_neg hp]
      simp only [ih (k + 1) n]
      constructor
      · rintro ⟨i, b, hb, rfl, hPb⟩
        exact ⟨i + 1, b, by simpa using hb, by omega, hPb⟩
      · rintro ⟨i, b, hb, rfl, hPb⟩
        cases i with
        | zero =>
          simp at hb
          subst hb
          exact absurd hPb hp
        | succ j =>
          exact ⟨j, b, by simpa using hb, by omega, hPb⟩

/-- The selected row numbers of an enumerated filter are strictly
increasing: they preserve original sheet order. -/
lemma pairwise_filterMap_enumFrom {α : Type} (P : α → Bool) (l : List α) :
    ∀ k : Nat, List.Pairwise (· < ·)
      ((List.enumFrom k l).filterMap fun p => if P p.2 then some p.1 else none) := by
  induction l with
  | nil => intro k; simp
  | cons a l ih =>
    intro k
    simp only [List.enumFrom_cons, List.filterMap_cons]
    by_cases hp : P a = true
    · rw [if_pos hp]
      refine List.Pairwise.cons (fun m hm => ?_) (ih (k + 1))
      obtain ⟨i, b, _, rfl, _⟩ := (mem_filterMap_enumFrom P l (k + 1) m).mp hm
      omega
    · rw [if_neg hp]
      exact ih (k + 1)

/-! ## C3: exact multi-field row filter -/

/-- C3: on a snapshot whose data rows are long enough for the columns the
loop reads, `find_rows` returns exactly the rows matching the selected
account and (when the set is non-empty) the selected category set, in
original sheet order, 1-based with the first data row numbered 2. -/
theorem find_rows_characterization (cuenta : String) (sectores : List String)
    (data : List (List String))
    (h1 : ∀ row ∈ data.drop 1, row ≠ [])
    (h2 : sectores ≠ [] → ∀ row ∈ data.drop 1, 2 ≤ row.length) :
    find_rows cuenta sectores data = Except.ok (findRowsSpec cuenta sectores data)
      ∧ List.Pairwise (· < ·) (findRowsSpec cuenta sectores data)
      ∧ ∀ i row, (data.drop 1)[i]? = some row →
          ((i + 2) ∈ findRowsSpec cuenta sectores data ↔ rowMatches cuenta sectores row = true) := by
  refine ⟨?_, pairwise_filterMap_enumFrom _ _ 2, ?_⟩
  · exact findRowsAux_ok cuenta sectores (data.drop 1) 0
      fun row hr => ⟨h1 row hr, fun hs => h2 hs row hr⟩
  · intro i row hrow
    unfold findRowsSpec
    constructor
    · intro hmem
      obtain ⟨j, b, hb, hn, hPb⟩ :=
        (mem_filterMap_enumFrom (rowMatches cuenta sectores) (data.drop 1) 2 (i + 2)).mp hmem
      have hji : j = i := by omega
      subst hji
      rw [hrow] at hb
      injection hb with hb
      exact hb ▸ hPb
    · intro hP
      exact (mem_filterMap_enumFrom (rowMatches cuenta sectores) (data.drop 1) 2 (i + 2)).mpr
        ⟨i, row, hrow, by omega, hP⟩

/-- Witness for C3: account "ACME" with category set containing only
"S1" selects exactly data row 1, i.e. sheet row 2. -/
theorem find_rows_characterization_witness :
    find_rows "ACME" ["S1"] [["Cuenta", "Sector"], ["ACME", "S1"], ["ACME", "S2"], ["Otra", "S1"]]
      = Except.ok [2] := by
  rw [(find_rows_characterization "ACME" ["S1"]
    [["Cuenta", "Sector"], ["ACME", "S1"], ["ACME", "S2"], ["Otra", "S1"]]
    (by decide) (by decide)).1]
  rfl

/-! ## C6: behaviour of the row filter on short rows -/

/-- Counterexample to C6: on a snapshot containing an empty data row,
`find_rows` raises (`row[0]` is an `IndexError` in Python) instead of
returning a result with that row unmatched. -/
theorem find_rows_raises_on_empty_row :
    find_rows "ACME" ["S1"] [["Cuenta", "Sector"], []] = Except.error () := by
  rfl

/-- C6 amended: `find_rows` returns without failing provided every data
row is non-empty and, when the selected category set is non-empty, has
at least two cells; a data row shorter than an accessed column index
makes the call fail instead of being skipped. -/
theorem find_rows_no_raise_on_wide_rows (cuenta : String) (sectores : List String)
    (data : List (List String))
    (h1 : ∀ row ∈ data.drop 1, row ≠ [])
    (h2 : sectores ≠ [] → ∀ row ∈ data.drop 1, 2 ≤ row.length) :
    find_rows cuenta sectores data ≠ Except.error () := by
  unfold find_rows
  rw [findRowsAux_ok cuenta sectores (data.drop 1) 0
    fun row hr => ⟨h1 row hr, fun hs => h2 hs row hr⟩]
  simp

/-- Witness for the amended C6: a one-cell data row is fine when the
category set is empty. -/
theorem find_rows_no_raise_on_wide_rows_witness :
    find_rows "ACME" [] [["Cuenta"], ["ACME"]] ≠ Except.error () :=
  find_rows_no_raise_on_wide_rows "ACME" [] [["Cuenta"], ["ACME"]]
    (by decide) (by decide)

/-! ## C4: free-text case-insensitive filter (spec-modelled) -/

/-- C4: `findByKey` selects a row exactly when its key-column value
contains the filter text case-insensitively (lower-casing both sides),
so filter text "acme" matches the value "ACME Corp". -/
theorem findByKey_case_insensitive (data : List (List String)) (keyColumn : Nat)
    (filterText : String) (i : Nat) (row : List String) (v : String)
    (hrow : (data.drop 1)[i]? = some row) (hv : row[keyColumn - 1]? = some v) :
    (i + 2) ∈ findByKey data keyColumn filterText
      ↔ strContains (lowerStr v) (lowerStr filterText) = true := by
  unfold findByKey
  constructor
  · intro hmem
    obtain ⟨j, b, hb, hn, hPb⟩ :=
      (mem_filterMap_enumFrom (matchesFilter keyColumn filterText) (data.drop 1) 2 (i + 2)).mp hmem
    have hji : j = i := by omega
    subst hji
    rw [hrow] at hb
    injection hb with hb
    subst hb
    unfold matchesFilter at hPb
    rw [hv] at hPb
    exact hPb
  · intro hc
    refine (mem_filterMap_enumFrom (matchesFilter keyColumn filterText) (data.drop 1) 2 (i + 2)).mpr
      ⟨i, row, hrow, by omega, ?_⟩
    unfold matchesFilter
    rw [hv]
    exact hc

/-- Witness for C4: filter text "acme" selects the data row whose key
value is "ACME Corp". -/
theorem findByKey_case_insensitive_witness :
    2 ∈ findByKey [["Key"], ["ACME Corp"]] 1 "acme" :=
  (findByKey_case_insensitive [["Key"], ["ACME Corp"]] 1 "acme" 0 ["ACME Corp"] "ACME Corp"
    (by decide) (by decide)).mpr (by decide)

/-! ## Batch planner lemmas -/

/-- Every cell of a step block targets the row the block was built for. -/
lemma step_cells_row (now : String) (step : StepUpdate) (row : Nat) :
    ∀ c ∈ step_cells now step row, c.row = row := by
  intro c hc
  cases hobs : step.obs_col with
  | none =>
    simp only [step_cells, hobs, List.append_assoc, List.mem_append, List.mem_singleton,
      List.not_mem_nil, or_false, false_or] at hc
    rcases hc with rfl | rfl <;> rfl
  | some oc =>
    simp only [step_cells, hobs, List.append_assoc, List.mem_append, List.mem_singleton,
      List.not_mem_nil, or_false, false_or] at hc
    rcases hc with rfl | rfl | rfl <;> rfl

/-- Every cell of a step block writes one of the block's columns. -/
lemma step_cells_col (now : String) (step : StepUpdate) (row : Nat) :
    ∀ c ∈ step_cells now step row, c.col ∈ step_cols step := by
  intro c hc
  cases hobs : step.obs_col with
  | none =>
    simp only [step_cells, hobs, List.append_assoc, List.mem_append, List.mem_singleton,
      List.not_mem_nil, or_false, false_or] at hc
    rcases hc with rfl | rfl <;> simp [step_cols, hobs]
  | some oc =>
    simp only [step_cells, hobs, List.append_assoc, List.mem_append, List.mem_singleton,
      List.not_mem_nil, or_false, false_or] at hc
    rcases hc with rfl | rfl | rfl <;> simp [step_cols, hobs]

/-- A step block's (column, value) pairs do not depend on the row. -/
lemma step_cells_map_pairs (now : String) (step : StepUpdate) (row : Nat) :
    (step_cells now step row).map (fun c => (c.col, c.value)) = step_pairs now step := by
  cases hobs : step.obs_col <;> simp [step_cells, step_pairs, hobs]

/-- Filtering mapped single-cell writes down to an absent row yields
nothing. -/
lemma filter_row_map_eq_nil (r : Nat) (f : Nat → Cell) (hf : ∀ x, (f x).row = x) :
    ∀ rows : List Nat, r ∉ rows → (rows.map f).filter (fun c => c.row == r) = [] := by
  intro rows
  induction rows with
  | nil => intro _; rfl
  | cons a l ih =>
    intro hr
    have ha : ¬(a = r) := fun h => hr (h ▸ List.mem_cons_self a l)
    have hpa : ((f a).row == r) = false := by
      rw [hf a]
      exact beq_eq_false_iff_ne.mpr ha
    simp [List.filter_cons, hpa, ih (fun h => hr (List.mem_cons_of_mem _ h))]

/-- Filtering mapped single-cell writes down to one target row keeps
exactly that row's write. -/
lemma filter_row_map_eq (rows : List Nat) (r : Nat) (f : Nat → Cell)
    (hf : ∀ x, (f x).row = x) (hnd : rows.Nodup) (hr : r ∈ rows) :
    (rows.map f).filter (fun c => c.row == r) = [f r] := by
  induction rows with
  | nil => cases hr
  | cons a l ih =>
    rcases List.mem_cons.mp hr with h | h
    · subst h
      have hpa : ((f r).row == r) = true := by rw [hf r]; exact beq_self_eq_true r
      simp [List.filter_cons, hpa,
        filter_row_map_eq_nil r f hf l (List.nodup_cons.mp hnd).1]
    · have ha : ¬(a = r) := by
        rintro rfl
        exact (List.nodup_cons.mp hnd).1 h
      have hpa : ((f a).row == r) = false := by
        rw [hf a]
        exact beq_eq_false_iff_ne.mpr ha
      simp [List.filter_cons, hpa, ih (List.nodup_cons.mp hnd).2 h]

/-- Filtering row-homogeneous blocks down to an absent row yields
nothing. -/
lemma filter_row_flatMap_eq_nil (r : Nat) (g : Nat → List Cell)
    (hg : ∀ x, ∀ c ∈ g x, c.row = x) :
    ∀ rows : List Nat, r ∉ rows → (rows.flatMap g).filter (fun c => c.row == r) = [] := by
  intro rows
  induction rows with
  | nil => intro _; rfl
  | cons a l ih =>
    intro hr
    have ha : ¬(a = r) := fun h => hr (h ▸ List.mem_cons_self a l)
    have h1 : (g a).filter (fun c => c.row == r) = [] := by
      rw [List.filter_eq_nil_iff]
      intro c hc
      rw [hg a c hc]
      simp [ha]
    rw [List.flatMap_cons, List.filter_append, h1, List.nil_append]
    exact ih (fun h => hr (List.mem_cons_of_mem _ h))

/-- Filtering row-homogeneous blocks down to one target row keeps
exactly that row's block. -/
lemma filter_row_flatMap_eq (rows : List Nat) (r : Nat) (g : Nat → List Cell)
    (hg : ∀ x, ∀ c ∈ g x, c.row = x) (hnd : rows.Nodup) (hr : r ∈ rows) :
    (rows.flatMap g).filter (fun c => c.row == r) = g r := by
  induction rows with
  | nil => cases hr
  | cons a l ih =>
    rw [List.flatMap_cons, List.filter_append]
    rcases List.mem_cons.mp hr with h | h
    · subst h
      have h1 : (g r).filter (fun c => c.row == r) = g r := by
        rw [List.filter_eq_self]
        intro c hc
        rw [hg r c hc]
        exact beq_self_eq_true r
      rw [h1, filter_row_flatMap_eq_nil r g hg l (List.nodup_cons.mp hnd).1,
        List.append_nil]
    · have ha : ¬(a = r) := by
        rintro rfl
        exact (List.nodup_cons.mp hnd).1 h
      have h1 : (g a).filter (fun c => c.row == r) = [] := by
        rw [List.filter_eq_nil_iff]
        intro c hc
        rw [hg a c hc]
        simp [ha]
      rw [h1, List.nil_append]
      exact ih (List.nodup_cons.mp hnd).2 h

/-- Filtering the steps segment down to one target row keeps exactly
that row's blocks, in step order. -/
lemma filter_row_steps_eq (steps : List StepUpdate) (rows : List Nat) (r : Nat)
    (now : String) (hnd : rows.Nodup) (hr : r ∈ rows) :
    ((steps.flatMap fun step => rows.flatMap fun row => step_cells now step row).filter
        (fun c => c.row == r))
      = steps.flatMap fun step => step_cells now step r := by
  induction steps with
  | nil => rfl
  | cons s ss ih =>
    rw [List.flatMap_cons, List.filter_append, ih, List.flatMap_cons,
      filter_row_flatMap_eq rows r (fun row => step_cells now s row)
        (fun x => step_cells_row now s x) hnd hr]

/-- The writes of `update_steps` that target row `r` are exactly the
claimed per-row sequence. -/
lemma update_steps_cells_filter_row (t : ChileTime) (rows : List Nat)
    (steps : List StepUpdate) (cls com : String)
    (hnd : rows.Nodup) (r : Nat) (hr : r ∈ rows) :
    (update_steps_cells t rows steps cls com).filter (fun c => c.row == r)
      = per_row_writes t steps cls com r := by
  unfold update_steps_cells per_row_writes
  simp only [List.filter_append]
  rw [filter_row_map_eq rows r _ (fun x => rfl) hnd hr,
    filter_row_map_eq rows r _ (fun x => rfl) hnd hr,
    filter_row_map_eq rows r _ (fun x => rfl) hnd hr,
    filter_row_steps_eq steps rows r _ hnd hr]

/-- The per-row write sequence projects to row-independent
(column, value) pairs. -/
lemma per_row_writes_map_pairs (t : ChileTime) (steps : List StepUpdate)
    (cls com : String) (r : Nat) :
    (per_row_writes t steps cls com r).map (fun c => (c.col, c.value))
      = col_value_pairs t steps cls com := by
  unfold per_row_writes col_value_pairs
  simp only [List.map_append, List.map_flatMap, List.map_cons, List.map_nil]
  rw [List.flatMap_congr fun step _ => step_cells_map_pairs (get_chile_timestamp t) step r]

/-! ## C1: per-row write order and uniformity -/

/-- C1: for a non-empty list of distinct target rows, the writes of the
emitted batch that target a given row are exactly, in this order, the
classification write, then per step the value write, the observation
write (when an observation column is defined) and the date write, then
the comment write, then the last-modified write; and every target row
receives writes with identical (column, value) pairs. -/
theorem update_steps_per_row (t : ChileTime) (rows : List Nat)
    (steps : List StepUpdate) (cls com : String)
    (hnd : rows.Nodup) (r : Nat) (hr : r ∈ rows) :
    (update_steps_cells t rows steps cls com).filter (fun c => c.row == r)
        = per_row_writes t steps cls com r
      ∧ ∀ r' ∈ rows,
          ((update_steps_cells t rows steps cls com).filter (fun c => c.row == r')).map
              (fun c => (c.col, c.value))
            = ((update_steps_cells t rows steps cls com).filter (fun c => c.row == r)).map
              (fun c => (c.col, c.value)) := by
  refine ⟨update_steps_cells_filter_row t rows steps cls com hnd r hr, fun r' hr' => ?_⟩
  rw [update_steps_cells_filter_row t rows steps cls com hnd r hr,
    update_steps_cells_filter_row t rows steps cls com hnd r' hr',
    per_row_writes_map_pairs, per_row_writes_map_pairs]

/-- Witness for C1: the spec's end-to-end scenario — rows 4 and 7, one
step ("Ingreso a Planilla", value column 4, observation column 5, date
column 6) set to "Sí" with observation "ok", classification "No",
comment "ready". -/
theorem update_steps_per_row_witness :
    ([4, 7] : List Nat).Nodup ∧ 4 ∈ ([4, 7] : List Nat)
      ∧ ((update_steps_cells ⟨12, 10, 2026, 9, 30⟩ [4, 7]
            [⟨4, some 5, 6, "Sí", "ok"⟩] "No" "ready").filter (fun c => c.row == 4)
          = per_row_writes ⟨12, 10, 2026, 9, 30⟩ [⟨4, some 5, 6, "Sí", "ok"⟩] "No" "ready" 4) :=
  ⟨by decide, by decide,
    (update_steps_per_row ⟨12, 10, 2026, 9, 30⟩ [4, 7] [⟨4, some 5, 6, "Sí", "ok"⟩]
      "No" "ready" (by decide) 4 (by decide)).1⟩

/-! ## C2: the date-stamp rule -/

/-- C2: for every step and every target row, the batch contains the date
write for that step and row, whose value is the current timestamp
(formatted `DD-MM-YY HH:MM` by `get_chile_timestamp`) when the resolved
step value lies in the literal set `fecha_values`, and the empty string
otherwise. -/
theorem update_steps_date_rule (t : ChileTime) (rows : List Nat)
    (steps : List StepUpdate) (cls com : String)
    (step : StepUpdate) (hs : step ∈ steps) (r : Nat) (hr : r ∈ rows) :
    Cell.mk r step.date_col
        (if fecha_values.contains (if step.value == "Vacío" then "" else step.value)
         then get_chile_timestamp t else "")
      ∈ update_steps_cells t rows steps cls com
    ∧ fecha_values = ["Sí", "Programado", "Sí (DropControl)", "Sí (CDTEC IF)"] := by
  refine ⟨?_, rfl⟩
  unfold update_steps_cells
  refine List.mem_append_left _ (List.mem_append_left _ (List.mem_append_right _ ?_))
  refine List.mem_flatMap.mpr ⟨step, hs, List.mem_flatMap.mpr ⟨r, hr, ?_⟩⟩
  cases hobs : step.obs_col <;> simp [step_cells, hobs]

/-- Witness for C2: one step chosen "No" (empty date write) and one
chosen "Programado" (timestamp date write) on row 4. -/
theorem update_steps_date_rule_witness :
    Cell.mk 4 9 ""
        ∈ update_steps_cells ⟨12, 10, 2026, 9, 30⟩ [4]
            [⟨7, some 8, 9, "No", ""⟩, ⟨10, some 11, 12, "Programado", ""⟩] "No" ""
      ∧ Cell.mk 4 12 "12-10-26 09:30"
          ∈ update_steps_cells ⟨12, 10, 2026, 9, 30⟩ [4]
              [⟨7, some 8, 9, "No", ""⟩, ⟨10, some 11, 12, "Programado", ""⟩] "No" "" :=
  ⟨(update_steps_date_rule ⟨12, 10, 2026, 9, 30⟩ [4]
      [⟨7, some 8, 9, "No", ""⟩, ⟨10, some 11, 12, "Programado", ""⟩] "No" ""
      ⟨7, some 8, 9, "No", ""⟩ (by decide) 4 (by decide)).1,
   (update_steps_date_rule ⟨12, 10, 2026, 9, 30⟩ [4]
      [⟨7, some 8, 9, "No", ""⟩, ⟨10, some 11, 12, "Programado", ""⟩] "No" ""
      ⟨10, some 11, 12, "Programado", ""⟩ (by decide) 4 (by decide)).1⟩

/-! ## C5: sentinel mapping and verbatim fields -/

/-- C5: the sentinel "Vacío" maps to the empty string for the
classification write and every step-value write, while the observation
text and the comment are written verbatim (even when empty or equal to
"Vacío"). -/
theorem update_steps_sentinel (t : ChileTime) (rows : List Nat)
    (steps : List StepUpdate) (cls com : String) (r : Nat) (hr : r ∈ rows) :
    Cell.mk r consultoria_col (if cls == "Vacío" then "" else cls)
        ∈ update_steps_cells t rows steps cls com
      ∧ (∀ step ∈ steps,
          Cell.mk r step.step_col (if step.value == "Vacío" then "" else step.value)
            ∈ update_steps_cells t rows steps cls com)
      ∧ (∀ step ∈ steps, ∀ oc, step.obs_col = some oc →
          Cell.mk r oc step.obs_value ∈ update_steps_cells t rows steps cls com)
      ∧ Cell.mk r comentarios_col com ∈ update_steps_cells t rows steps cls com := by
  refine ⟨?_, fun step hs => ?_, fun step hs oc hoc => ?_, ?_⟩
  · exact List.mem_append_left _ (List.mem_append_left _ (List.mem_append_left _
      (List.mem_map.mpr ⟨r, hr, rfl⟩)))
  · refine List.mem_append_left _ (List.mem_append_left _ (List.mem_append_right _
      (List.mem_flatMap.mpr ⟨step, hs, List.mem_flatMap.mpr ⟨r, hr, ?_⟩⟩)))
    cases hobs : step.obs_col <;> simp [step_cells, hobs]
  · refine List.mem_append_left _ (List.mem_append_left _ (List.mem_append_right _
      (List.mem_flatMap.mpr ⟨step, hs, List.mem_flatMap.mpr ⟨r, hr, ?_⟩⟩)))
    simp [step_cells, hoc]
  · exact List.mem_append_left _ (List.mem_append_right _
      (List.mem_map.mpr ⟨r, hr, rfl⟩))

/-- Witness for C5: classification "Vacío" is written as the empty
string, a step value "Vacío" is written as the empty string, while the
observation text "Vacío" and the comment "Vacío" are written verbatim. -/
theorem update_steps_sentinel_witness :
    Cell.mk 4 consultoria_col ""
        ∈ update_steps_cells ⟨1, 2, 2026, 3, 4⟩ [4] [⟨4, some 5, 6, "Vacío", "Vacío"⟩]
            "Vacío" "Vacío"
      ∧ Cell.mk 4 5 "Vacío"
          ∈ update_steps_cells ⟨1, 2, 2026, 3, 4⟩ [4] [⟨4, some 5, 6, "Vacío", "Vacío"⟩]
              "Vacío" "Vacío"
      ∧ Cell.mk 4 comentarios_col "Vacío"
          ∈ update_steps_cells ⟨1, 2, 2026, 3, 4⟩ [4] [⟨4, some 5, 6, "Vacío", "Vacío"⟩]
              "Vacío" "Vacío" :=
  ⟨(update_steps_sentinel ⟨1, 2, 2026, 3, 4⟩ [4] [⟨4, some 5, 6, "Vacío", "Vacío"⟩]
      "Vacío" "Vacío" 4 (by decide)).1,
   (update_steps_sentinel ⟨1, 2, 2026, 3, 4⟩ [4] [⟨4, some 5, 6, "Vacío", "Vacío"⟩]
      "Vacío" "Vacío" 4 (by decide)).2.2.1 ⟨4, some 5, 6, "Vacío", "Vacío"⟩ (by decide) 5 rfl,
   (update_steps_sentinel ⟨1, 2, 2026, 3, 4⟩ [4] [⟨4, some 5, 6, "Vacío", "Vacío"⟩]
      "Vacío" "Vacío" 4 (by decide)).2.2.2⟩

/-- `countP` distributes over `flatMap` as a sum of per-block counts. -/
lemma countP_flatMap {α β : Type} (p : β → Bool) (l : List α) (f : α → List β) :
    (l.flatMap f).countP p = (l.map fun a => (f a).countP p).sum := by
  induction l with
  | nil => rfl
  | cons a l ih =>
    rw [List.flatMap_cons, List.countP_append, List.map_cons, List.sum_cons, ih]

/-- `count` distributes over `flatMap` as a sum of per-block counts. -/
lemma count_flatMap {α : Type} [BEq α] (a : α) (l : List StepUpdate)
    (f : StepUpdate → List α) :
    (l.flatMap f).count a = (l.map fun s => (f s).count a).sum :=
  countP_flatMap (· == a) l f

/-- Summing a constant over a list multiplies it by the length. -/
lemma sum_map_const {α : Type} (l : List α) (b : Nat) :
    (l.map fun _ => b).sum = l.length * b := by
  induction l with
  | nil => simp
  | cons a l ih =>
    rw [List.map_cons, List.sum_cons, ih, List.length_cons, Nat.succ_mul, Nat.add_comm]

/-- Pulling a constant factor out of a summed map. -/
lemma sum_map_mul_left {α : Type} (l : List α) (b : Nat) (f : α → Nat) :
    (l.map fun x => b * f x).sum = b * (l.map f).sum := by
  induction l with
  | nil => simp
  | cons a l ih =>
    rw [List.map_cons, List.sum_cons, ih, List.map_cons, List.sum_cons, Nat.mul_add]

/-- A step block contributes to a column exactly the multiplicity of that
column among the block's columns, independently of the row. -/
lemma step_cells_countP (now : String) (step : StepUpdate) (row col : Nat) :
    ((step_cells now step row).countP fun c => c.col == col)
      = (step_cols step).count col := by
  cases hobs : step.obs_col with
  | none =>
    by_cases h1 : step.step_col = col <;> by_cases h2 : step.date_col = col <;>
      simp [step_cells, step_cols, hobs, h1, h2, List.count_cons, List.countP_cons]
  | some oc =>
    by_cases h1 : step.step_col = col <;> by_cases h2 : oc = col <;>
      by_cases h3 : step.date_col = col <;>
        simp [step_cells, step_cols, hobs, h1, h2, h3, List.count_cons, List.countP_cons]

/-- Mapped single-cell writes with a fixed column contribute the
column's indicator once per row. -/
lemma countP_cells_map_const (rows : List Nat) (f : Nat → Cell) (k col : Nat)
    (hf : ∀ x, (f x).col = k) :
    ((rows.map f).countP fun c => c.col == col)
      = rows.length * (if k = col then 1 else 0) := by
  rw [List.countP_map]
  by_cases hk : k = col
  · have hfun : ((fun c => c.col == col) ∘ f) = fun _ => true :=
      funext fun x => by simp [Function.comp, hf x, hk]
    rw [hfun, List.countP_true, if_pos hk, Nat.mul_one]
  · have hfun : ((fun c => c.col == col) ∘ f) = fun _ => false :=
      funext fun x => by simp [Function.comp, hf x, hk]
    rw [hfun, List.countP_false, if_neg hk, Nat.mul_zero]
    rfl

/-- Each written column receives `rows.length` writes per occurrence in
the written-column list. -/
lemma update_steps_cells_countP (t : ChileTime) (rows : List Nat)
    (steps : List StepUpdate) (cls com : String) (col : Nat) :
    ((update_steps_cells t rows steps cls com).countP fun c => c.col == col)
      = rows.length * (written_cols steps).count col := by
  unfold update_steps_cells written_cols
  simp only [List.countP_append]
  rw [countP_cells_map_const rows _ consultoria_col col (fun _ => rfl),
    countP_cells_map_const rows _ comentarios_col col (fun _ => rfl),
    countP_cells_map_const rows _ ultima_actualizacion_col col (fun _ => rfl),
    countP_flatMap]
  have hstep : (steps.map fun step =>
      ((rows.flatMap fun row => step_cells (get_chile_timestamp t) step row).countP
        fun c => c.col == col))
      = steps.map fun step => rows.length * (step_cols step).count col := by
    refine List.map_congr_left fun step _ => ?_
    rw [countP_flatMap]
    have hrows : (rows.map fun row =>
        ((step_cells (get_chile_timestamp t) step row).countP fun c => c.col == col))
        = rows.map fun _ => (step_cols step).count col :=
      List.map_congr_left fun row _ => step_cells_countP (get_chile_timestamp t) step row col
    rw [hrows, sum_map_const]
  rw [hstep, List.count_append, count_flatMap]
  have h3 : ([consultoria_col, comentarios_col, ultima_actualizacion_col].count col)
      = (if consultoria_col = col then 1 else 0) + (if comentarios_col = col then 1 else 0)
        + (if ultima_actualizacion_col = col then 1 else 0) := by
    by_cases h1 : consultoria_col = col <;> by_cases h2 : comentarios_col = col <;>
      by_cases h4 : ultima_actualizacion_col = col <;>
        simp [h1, h2, h4, List.count_cons]
  rw [h3, sum_map_mul_left steps rows.length fun step => (step_cols step).count col]
  ring

/-! ## C10: frame property of the batch -/

/-- C10: every write of the batch targets a row in the input list and a
column among the three fixed columns and the supplied steps' value,
observation and date columns; and, when those columns are pairwise
distinct, every written column receives exactly one write per target
row. -/
theorem update_steps_frame (t : ChileTime) (rows : List Nat)
    (steps : List StepUpdate) (cls com : String)
    (hnd : (written_cols steps).Nodup) :
    (∀ c ∈ update_steps_cells t rows steps cls com,
        c.row ∈ rows ∧ c.col ∈ written_cols steps)
      ∧ ∀ col ∈ written_cols steps,
          ((update_steps_cells t rows steps cls com).filter fun c => c.col == col).length
            = rows.length := by
  constructor
  · intro c hc
    unfold update_steps_cells at hc
    simp only [List.mem_append] at hc
    rcases hc with ((hc | hc) | hc) | hc
    · obtain ⟨r, hr, rfl⟩ := List.mem_map.mp hc
      exact ⟨hr, by simp [written_cols]⟩
    · obtain ⟨step, hs, hc⟩ := List.mem_flatMap.mp hc
      obtain ⟨r, hr, hc⟩ := List.mem_flatMap.mp hc
      refine ⟨(step_cells_row _ step r c hc) ▸ hr, ?_⟩
      unfold written_cols
      exact List.mem_append_right _
        (List.mem_flatMap.mpr ⟨step, hs, step_cells_col _ step r c hc⟩)
    · obtain ⟨r, hr, rfl⟩ := List.mem_map.mp hc
      exact ⟨hr, by simp [written_cols]⟩
    · obtain ⟨r, hr, rfl⟩ := List.mem_map.mp hc
      exact ⟨hr, by simp [written_cols]⟩
  · intro col hcol
    have hcount := update_steps_cells_countP t rows steps cls com col
    rw [List.countP_eq_length_filter] at hcount
    have h1 : (written_cols steps).count col = 1 := by
      have hle := List.nodup_iff_count_le_one.mp hnd col
      have hge := List.count_pos_iff.mpr hcol
      omega
    rw [hcount, h1, Nat.mul_one]

/-- Witness for C10: with the step "Ingreso a Planilla" (columns 4, 5,
6), the written columns are pairwise distinct and column 6 receives
exactly one write per target row. -/
theorem update_steps_frame_witness :
    (written_cols [⟨4, some 5, 6, "Sí", "ok"⟩]).Nodup
      ∧ ((update_steps_cells ⟨12, 10, 2026, 9, 30⟩ [4, 7] [⟨4, some 5, 6, "Sí", "ok"⟩]
            "No" "ready").filter fun c => c.col == 6).length = 2 :=
  ⟨by decide,
    (update_steps_frame ⟨12, 10, 2026, 9, 30⟩ [4, 7] [⟨4, some 5, 6, "Sí", "ok"⟩]
      "No" "ready" (by decide)).2 6 (by decide)⟩

/-! ## C7: cache invalidation and return value of the submission -/

/-- Counterexample to C7: on a batch-write failure whose error text
matches the quota test, `update_steps` does not return `False` — it
sleeps one second and reruns the script (and also leaves the cache
untouched). -/
theorem update_steps_submit_quota_counterexample :
    ((update_steps_submit (ApiResult.err "Quota exceeded for quota metric")
        (some [["cached"]])).1).returnsFalse = false
      ∧ update_steps_submit (ApiResult.err "Quota exceeded for quota metric")
          (some [["cached"]])
        = (SubmitOutcome.rerunAfterDelay 1, some [["cached"]]) := by
  constructor <;> rfl

/-- C7 amended: `update_steps` clears the snapshot cache exactly when
the batch write succeeds, returning `True` (so the next read fetches
fresh data); a failed write leaves the cache untouched and either
returns `False` (non-quota error, original message surfaced) or reruns
the script after a one-second sleep (quota error). -/
theorem update_steps_cache_invalidation (write : ApiResult Unit)
    (cache : Option (List (List String))) (fresh : List (List String)) :
    (∀ u, write = ApiResult.ok u →
        update_steps_submit write cache = (SubmitOutcome.retTrue, none)
          ∧ next_snapshot_read (update_steps_submit write cache).2 fresh = fresh)
      ∧ (∀ e, write = ApiResult.err e → isQuotaError e = false →
          update_steps_submit write cache = (SubmitOutcome.retFalse e, cache))
      ∧ (∀ e, write = ApiResult.err e → isQuotaError e = true →
          update_steps_submit write cache = (SubmitOutcome.rerunAfterDelay 1, cache)) := by
  refine ⟨fun u hu => ?_, fun e he hq => ?_, fun e he hq => ?_⟩
  · subst hu
    exact ⟨rfl, rfl⟩
  · subst he
    simp [update_steps_submit, handle_quota_error, hq]
  · subst he
    simp [update_steps_submit, handle_quota_error, hq]

/-- Witness for the amended C7: a successful write clears the cache and
the next read is the fresh fetch; a plain failure returns `False` with
the original message and keeps the cache. -/
theorem update_steps_cache_invalidation_witness :
    (update_steps_submit (ApiResult.ok ()) (some [["stale"]]) = (SubmitOutcome.retTrue, none)
        ∧ next_snapshot_read (update_steps_submit (ApiResult.ok ()) (some [["stale"]])).2
            [["fresh"]] = [["fresh"]])
      ∧ update_steps_submit (ApiResult.err "boom") (some [["stale"]])
          = (SubmitOutcome.retFalse "boom", some [["stale"]]) :=
  ⟨(update_steps_cache_invalidation (ApiResult.ok ()) (some [["stale"]]) [["fresh"]]).1 () rfl,
   (update_steps_cache_invalidation (ApiResult.err "boom") (some [["stale"]]) [["fresh"]]).2.1
     "boom" rfl (by decide)⟩

/-! ## C8: quota handling — rerun, not a single retry -/

/-- Counterexample to C8: on a quota error the read path reruns the
whole script instead of retrying the call once — with a first attempt
failing on quota and a second attempt that would succeed, the code's
outcome differs from the spec's retry-once outcome. -/
theorem quota_no_single_retry_counterexample :
    get_data_body (ApiResult.err "quota exceeded") = ReadOutcome.rerunAfterDelay 1
      ∧ spec_read_with_retry (ApiResult.err "quota exceeded") (ApiResult.ok [["fresh"]])
          = ReadOutcome.ok [["fresh"]]
      ∧ get_data_body (ApiResult.err "quota exceeded") ≠ ReadOutcome.ok [["fresh"]] := by
  refine ⟨rfl, rfl, ?_⟩
  decide

/-- C8 amended: when a read or write call fails with an error whose text
contains "quota" or "limit" (case-insensitively), the code shows an
error, sleeps one second and reruns the script — the failed call is not
retried and no failure value reaches the caller; any other failure is
surfaced with its original message (`None` for reads, `False` for
writes) and the cache is untouched. -/
theorem quota_error_handling (e : String) :
    (isQuotaError e = true →
        get_data_body (ApiResult.err e) = ReadOutcome.rerunAfterDelay 1
          ∧ ∀ cache, update_steps_submit (ApiResult.err e) cache
              = (SubmitOutcome.rerunAfterDelay 1, cache))
      ∧ (isQuotaError e = false →
          get_data_body (ApiResult.err e) = ReadOutcome.noneValue e
            ∧ ∀ cache, update_steps_submit (ApiResult.err e) cache
                = (SubmitOutcome.retFalse e, cache))
      ∧ isQuotaError e
          = (strContains (lowerStr e) "quota" || strContains (lowerStr e) "limit") := by
  refine ⟨fun hq => ?_, fun hq => ?_, rfl⟩
  · exact ⟨by simp [get_data_body, handle_quota_error, hq],
      fun cache => by simp [update_steps_submit, handle_quota_error, hq]⟩
  · exact ⟨by simp [get_data_body, handle_quota_error, hq],
      fun cache => by simp [update_steps_submit, handle_quota_error, hq]⟩

/-- Witness for the amended C8: "API limit reached" matches the quota
test and reruns; "boom" does not and is surfaced as `None` with its
message. -/
theorem quota_error_handling_witness :
    get_data_body (ApiResult.err "API limit reached") = ReadOutcome.rerunAfterDelay 1
      ∧ get_data_body (ApiResult.err "boom") = ReadOutcome.noneValue "boom" :=
  ⟨((quota_error_handling "API limit reached").1 (by decide)).1,
   ((quota_error_handling "boom").2.1 (by decide)).1⟩
